import Mathlib

/-!
Shallow embedding of the clReflect runtime reflection database
(`src/inc/crcpp/Database.h`, `src/inc/clcpp/Database.h`,
`src/src/clReflectCpp/Database.cpp`, the array helpers in
`src/src/clReflectExport` and the `clutl::DataBuffer` interface).

Machine integers are modelled as `Nat` with explicit reduction modulo
`2^32` where the C code performs 32-bit unsigned arithmetic; the
implicit conversion of an out-of-range `unsigned int` to `int` is
modelled by `toInt32` (two's-complement wrap, which is what every
platform clReflect targets does).  Pointers that can be null are
modelled as `Option`; a fallible operation (null-pointer dereference or
a failed `internal::Assert`) returns `Except Fault`.
-/

/-- Two's-complement reinterpretation of a 32-bit unsigned value as a
signed `int`, as happens in `CompareNames` / `ComparePrimitives` when
the unsigned difference `hash - name.hash` is converted to `int`. -/
def toInt32 (n : Nat) : Int :=
  if n % 4294967296 < 2147483648 then ((n % 4294967296 : Nat) : Int)
  else ((n % 4294967296 : Nat) : Int) - 4294967296

/-- 32-bit unsigned subtraction `a - b` (wraps modulo `2^32`). -/
def u32sub (a b : Nat) : Nat :=
  (a % 4294967296 + (4294967296 - b % 4294967296)) % 4294967296

/-- The failure modes of the embedded C++ code: dereferencing a null
pointer, and a failed `internal::Assert`. -/
inductive Fault where
  | nullDeref
  | assertFail
deriving DecidableEq, Repr

/-- `crcpp::Name` / `clcpp::Name`: a 32-bit hash plus a pointer into the
name-text blob (null when absent).  The default constructor produces the
empty sentinel `{hash = 0, text = null}`. -/
structure Name where
  hash : Nat
  text : Option String
deriving DecidableEq, Repr

instance : Inhabited Name := ⟨⟨0, none⟩⟩

/-- `clcpp::Primitive::Kind` (the clcpp profile's full tag set; the
crcpp profile uses the subset without attribute/template kinds). -/
inductive Kind where
  | KIND_NONE
  | KIND_ATTRIBUTE
  | KIND_FLAG_ATTRIBUTE
  | KIND_INT_ATTRIBUTE
  | KIND_FLOAT_ATTRIBUTE
  | KIND_NAME_ATTRIBUTE
  | KIND_TEXT_ATTRIBUTE
  | KIND_TYPE
  | KIND_ENUM_CONSTANT
  | KIND_ENUM
  | KIND_FIELD
  | KIND_FUNCTION
  | KIND_TEMPLATE_TYPE
  | KIND_TEMPLATE
  | KIND_CLASS
  | KIND_NAMESPACE
deriving DecidableEq, Repr

/-- The `Primitive` base record: kind tag, name, parent back-reference
(a non-owning pointer, modelled as an opaque optional address).
Kind-specific payload fields that no claim touches are not repeated in
the per-kind arrays below. -/
structure Primitive where
  kind : Kind
  name : Name
  parent : Option Nat
deriving DecidableEq, Repr

instance : Inhabited Primitive := ⟨⟨Kind.KIND_NONE, ⟨0, none⟩, none⟩⟩

/-- `CompareNames` from `Database.cpp`: `return hash - name.hash;`
computed in 32-bit unsigned arithmetic and implicitly converted to
`int`. -/
def CompareNames (name : Name) (hash : Nat) : Int :=
  toInt32 (u32sub hash name.hash)

/-- `ComparePrimitives` from `Database.cpp`:
`return hash - primitive->name.hash;` (same arithmetic for the
by-pointer and by-reference overloads). -/
def ComparePrimitives (primitive : Primitive) (hash : Nat) : Int :=
  toInt32 (u32sub hash primitive.name.hash)

/-- The loop body of the templated `BinarySearch` in `Database.cpp`,
with `first`/`last` the C `int` variables.  `entries[mid]` is total in
the embedding via `getD`; the search only ever indexes in range. -/
def bsGo {α : Type} [Inhabited α] (cmpf : α → Nat → Int) (entries : List α)
    (compare_value : Nat) (first last : Int) : Int :=
  if h : first ≤ last then
    let mid : Int := (first + last) / 2
    let cmp : Int := cmpf (entries.getD mid.toNat default) compare_value
    if cmp > 0 then bsGo cmpf entries compare_value (mid + 1) last
    else if cmp < 0 then bsGo cmpf entries compare_value first (mid - 1)
    else mid
  else -1
termination_by (last + 1 - first).toNat
decreasing_by
  all_goals simp_wf
  all_goals omega

/-- `BinarySearch(entries, compare_value)` from `Database.cpp`:
`first = 0`, `last = entries.size() - 1` (which is `-1` for an empty
array), loop as in `bsGo`, returning the matching index or `-1`. -/
def BinarySearch {α : Type} [Inhabited α] (cmpf : α → Nat → Int)
    (entries : List α) (compare_value : Nat) : Int :=
  bsGo cmpf entries compare_value 0 ((entries.length : Int) - 1)

/-- `crcpp::internal::FindPrimitive`: binary search over an array of
primitive pointers sorted by name hash; null when not found, else the
entry at the returned index. -/
def FindPrimitive (primitives : List Primitive) (hash : Nat) : Option Primitive :=
  let index := BinarySearch ComparePrimitives primitives hash
  if index = -1 then none
  else primitives[index.toNat]?

/-- Structural (fuel-indexed) twin of `bsGo`, used to let the kernel
evaluate the search on concrete inputs; `bsGo_eq_fuel` proves it agrees
with `bsGo` whenever the fuel covers the interval length. -/
def bsGoFuel {α : Type} [Inhabited α] (fuel : Nat) (cmpf : α → Nat → Int)
    (entries : List α) (compare_value : Nat) (first last : Int) : Int :=
  match fuel with
  | 0 => -1
  | fuel + 1 =>
    if first ≤ last then
      let mid : Int := (first + last) / 2
      let cmp : Int := cmpf (entries.getD mid.toNat default) compare_value
      if cmp > 0 then bsGoFuel fuel cmpf entries compare_value (mid + 1) last
      else if cmp < 0 then bsGoFuel fuel cmpf entries compare_value first (mid - 1)
      else mid
    else -1

theorem bsGo_eq_fuel {α : Type} [Inhabited α] (cmpf : α → Nat → Int)
    (entries : List α) (v : Nat) :
    ∀ (fuel : Nat) (first last : Int), (last + 1 - first).toNat ≤ fuel →
    bsGo cmpf entries v first last = bsGoFuel fuel cmpf entries v first last := by
  intro fuel
  induction fuel with
  | zero =>
    intro first last hm
    have hfl : ¬ first ≤ last := by omega
    rw [bsGo, bsGoFuel]
    simp [hfl]
  | succ n ih =>
    intro first last hm
    rw [bsGo, bsGoFuel]
    by_cases hfl : first ≤ last
    · simp only [hfl, dif_pos, if_pos]
      have hmid1 : first ≤ (first + last) / 2 := by omega
      have hmid2 : (first + last) / 2 ≤ last := by omega
      by_cases hc1 : cmpf (entries.getD ((first + last) / 2).toNat default) v > 0
      · simp only [hc1, if_pos]
        exact ih _ _ (by omega)
      · simp only [hc1, if_neg, if_false]
        by_cases hc2 : cmpf (entries.getD ((first + last) / 2).toNat default) v < 0
        · simp only [hc2, if_pos]
          exact ih _ _ (by omega)
        · rw [if_neg hc2, if_neg hc2]
    · simp [hfl]

theorem BinarySearch_eq_fuel {α : Type} [Inhabited α] (cmpf : α → Nat → Int)
    (entries : List α) (v : Nat) :
    BinarySearch cmpf entries v
      = bsGoFuel entries.length cmpf entries v 0 ((entries.length : Int) - 1) := by
  rw [BinarySearch]
  exact bsGo_eq_fuel cmpf entries v entries.length 0 _ (by omega)

theorem toInt32_u32sub_eq_zero_iff {v b : Nat} (hv : v < 4294967296)
    (hb : b < 4294967296) : toInt32 (u32sub v b) = 0 ↔ v = b := by
  rw [toInt32, u32sub]
  split_ifs with h
  · omega
  · omega

theorem toInt32_u32sub_pos_iff {v b : Nat} (hv : v < 2147483648)
    (hb : b < 2147483648) : 0 < toInt32 (u32sub v b) ↔ b < v := by
  rw [toInt32, u32sub]
  split_ifs with h
  · omega
  · omega

theorem toInt32_u32sub_neg_iff {v b : Nat} (hv : v < 2147483648)
    (hb : b < 2147483648) : toInt32 (u32sub v b) < 0 ↔ v < b := by
  rw [toInt32, u32sub]
  split_ifs with h
  · omega
  · omega

/-- Soundness of the search loop: it returns `-1` or an in-range index
whose entry compares equal to the target. -/
theorem bsGoFuel_sound {α : Type} [Inhabited α] (cmpf : α → Nat → Int)
    (entries : List α) (v : Nat) :
    ∀ (fuel : Nat) (first last : Int), 0 ≤ first → last < (entries.length : Int) →
    bsGoFuel fuel cmpf entries v first last = -1 ∨
      (0 ≤ bsGoFuel fuel cmpf entries v first last ∧
       bsGoFuel fuel cmpf entries v first last < (entries.length : Int) ∧
       cmpf (entries.getD (bsGoFuel fuel cmpf entries v first last).toNat default) v = 0) := by
  intro fuel
  induction fuel with
  | zero => intro first last _ _; left; rfl
  | succ n ih =>
    intro first last hf hl
    rw [bsGoFuel]
    by_cases hfl : first ≤ last
    · simp only [hfl, if_pos]
      have hmid1 : first ≤ (first + last) / 2 := by omega
      have hmid2 : (first + last) / 2 ≤ last := by omega
      by_cases hc1 : cmpf (entries.getD ((first + last) / 2).toNat default) v > 0
      · simp only [hc1, if_pos]
        exact ih ((first + last) / 2 + 1) last (by omega) hl
      · rw [if_neg hc1]
        by_cases hc2 : cmpf (entries.getD ((first + last) / 2).toNat default) v < 0
        · simp only [hc2, if_pos]
          exact ih first ((first + last) / 2 - 1) hf (by omega)
        · rw [if_neg hc2]
          right
          refine ⟨by omega, by omega, by omega⟩
    · simp [hfl]

/-- Completeness of the search loop for a hash projection whose values
(and the target) fit in 31 bits, over an interval that is sorted and
contains the target. -/
theorem bsGoFuel_complete {α : Type} [Inhabited α] (hashOf : α → Nat)
    (entries : List α) (v : Nat)
    (hsorted : ∀ i j : Nat, i < j → j < entries.length →
      hashOf (entries.getD i default) ≤ hashOf (entries.getD j default))
    (hsmall : ∀ i : Nat, i < entries.length → hashOf (entries.getD i default) < 2147483648)
    (hv : v < 2147483648) :
    ∀ (fuel : Nat) (first last : Int), (last + 1 - first).toNat ≤ fuel →
    0 ≤ first → last < (entries.length : Int) →
    (∃ j : Nat, first ≤ (j : Int) ∧ (j : Int) ≤ last ∧
      hashOf (entries.getD j default) = v) →
    ∃ i : Nat, bsGoFuel fuel (fun a t => toInt32 (u32sub t (hashOf a))) entries v first last = (i : Int) ∧
      i < entries.length ∧ hashOf (entries.getD i default) = v := by
  intro fuel
  induction fuel with
  | zero =>
    intro first last hm hf hl hj
    obtain ⟨j, hj1, hj2, hj3⟩ := hj
    omega
  | succ n ih =>
    intro first last hm hf hl hj
    obtain ⟨j, hj1, hj2, hj3⟩ := hj
    have hfl : first ≤ last := by omega
    rw [bsGoFuel]
    simp only [hfl, if_pos]
    have hmid1 : first ≤ (first + last) / 2 := by omega
    have hmid2 : (first + last) / 2 ≤ last := by omega
    have hmidlen : ((first + last) / 2).toNat < entries.length := by omega
    have hesmall : hashOf (entries.getD ((first + last) / 2).toNat default) < 2147483648 :=
      hsmall _ hmidlen
    by_cases hc1 : toInt32 (u32sub v (hashOf (entries.getD ((first + last) / 2).toNat default))) > 0
    · simp only [hc1, if_pos]
      have hlt : hashOf (entries.getD ((first + last) / 2).toNat default) < v :=
        (toInt32_u32sub_pos_iff hv hesmall).mp hc1
      -- the witness index must lie strictly right of mid
      have hjgt : (first + last) / 2 < (j : Int) := by
        by_contra hle
        push_neg at hle
        rcases lt_or_eq_of_le hle with hlt2 | heq
        · have hmono := hsorted j ((first + last) / 2).toNat (by omega) hmidlen
          omega
        · rw [show j = ((first + last) / 2).toNat by omega] at hj3
          omega
      exact ih ((first + last) / 2 + 1) last (by omega) (by omega) hl ⟨j, by omega, hj2, hj3⟩
    · rw [if_neg hc1]
      by_cases hc2 : toInt32 (u32sub v (hashOf (entries.getD ((first + last) / 2).toNat default))) < 0
      · simp only [hc2, if_pos]
        have hgt : v < hashOf (entries.getD ((first + last) / 2).toNat default) :=
          (toInt32_u32sub_neg_iff hv hesmall).mp hc2
        have hjlt : (j : Int) < (first + last) / 2 := by
          by_contra hle
          push_neg at hle
          rcases lt_or_eq_of_le hle with hlt2 | heq
          · have hmono := hsorted ((first + last) / 2).toNat j (by omega) (by omega)
            omega
          · rw [show j = ((first + last) / 2).toNat by omega] at hj3
            omega
        exact ih first ((first + last) / 2 - 1) (by omega) hf (by omega) ⟨j, hj1, by omega, hj3⟩
      · rw [if_neg hc2]
        have hz : toInt32 (u32sub v (hashOf (entries.getD ((first + last) / 2).toNat default))) = 0 := by
          omega
        have := (toInt32_u32sub_eq_zero_iff (by omega) (by omega)).mp hz
        exact ⟨((first + last) / 2).toNat, by omega, hmidlen, by omega⟩

/-- Adjacent-pair check that a primitive array is sorted ascending by
name hash (kernel-computable on concrete arrays). -/
def sortedByHashB : List Primitive → Bool
  | [] => true
  | [_] => true
  | p :: q :: t => decide (p.name.hash ≤ q.name.hash) && sortedByHashB (q :: t)

/-- The load-time precondition on primitive arrays: sorted ascending by
name hash. -/
def SortedByHash (l : List Primitive) : Prop :=
  sortedByHashB l = true

instance (l : List Primitive) : Decidable (SortedByHash l) :=
  inferInstanceAs (Decidable (sortedByHashB l = true))

instance : IsTrans Primitive (fun p q : Primitive => p.name.hash ≤ q.name.hash) :=
  ⟨fun _ _ _ => Nat.le_trans⟩

theorem sortedByHashB_chain' :
    ∀ l : List Primitive, sortedByHashB l = true ↔
      List.Chain' (fun p q : Primitive => p.name.hash ≤ q.name.hash) l
  | [] => by simp [sortedByHashB]
  | [p] => by simp [sortedByHashB]
  | p :: q :: t => by
    rw [sortedByHashB, List.chain'_cons, Bool.and_eq_true, decide_eq_true_iff,
      sortedByHashB_chain' (q :: t)]

theorem SortedByHash.mono {l : List Primitive} (h : SortedByHash l) :
    ∀ i j : Nat, i < j → j < l.length →
    (l.getD i default).name.hash ≤ (l.getD j default).name.hash := by
  intro i j hij hj
  have hp : List.Pairwise (fun p q : Primitive => p.name.hash ≤ q.name.hash) l :=
    List.chain'_iff_pairwise.mp ((sortedByHashB_chain' l).mp h)
  have hg := List.pairwise_iff_get.mp hp ⟨i, by omega⟩ ⟨j, hj⟩ hij
  rw [List.getD_eq_getElem l default (by omega), List.getD_eq_getElem l default hj]
  simpa using hg

/-- `FindPrimitive` re-expressed through the fuel-indexed search so that
concrete instances evaluate in the kernel. -/
theorem FindPrimitive_eq_fuel (primitives : List Primitive) (hash : Nat) :
    FindPrimitive primitives hash =
      (if bsGoFuel primitives.length ComparePrimitives primitives hash 0
            ((primitives.length : Int) - 1) = -1 then none
       else primitives[(bsGoFuel primitives.length ComparePrimitives primitives hash 0
            ((primitives.length : Int) - 1)).toNat]?) := by
  unfold FindPrimitive
  rw [BinarySearch_eq_fuel]

/-- When no entry carries the queried 32-bit hash, the search misses and
`FindPrimitive` returns null; this needs no sortedness assumption. -/
theorem FindPrimitive_not_found {primitives : List Primitive} {v : Nat}
    (hv : v < 4294967296)
    (hall : ∀ p ∈ primitives, p.name.hash < 4294967296)
    (habs : ∀ p ∈ primitives, p.name.hash ≠ v) :
    FindPrimitive primitives v = none := by
  rw [FindPrimitive_eq_fuel]
  rcases bsGoFuel_sound ComparePrimitives primitives v primitives.length 0
      ((primitives.length : Int) - 1) (by omega) (by omega) with h1 | ⟨h2a, h2b, h2c⟩
  · rw [h1]
    simp
  · exfalso
    set r := bsGoFuel primitives.length ComparePrimitives primitives v 0
      ((primitives.length : Int) - 1) with hr
    have hrlen : r.toNat < primitives.length := by omega
    have hmem : primitives.getD r.toNat default ∈ primitives := by
      rw [List.getD_eq_getElem primitives default hrlen]
      exact List.getElem_mem hrlen
    have hz : toInt32 (u32sub v (primitives.getD r.toNat default).name.hash) = 0 := h2c
    have := (toInt32_u32sub_eq_zero_iff hv (hall _ hmem)).mp hz
    exact habs _ hmem this.symm

/-- When the array is hash-sorted, every hash fits in 31 bits (so the
signed comparison cannot wrap) and some entry carries the target hash,
`FindPrimitive` returns an entry with that hash. -/
theorem FindPrimitive_found {primitives : List Primitive} {v : Nat}
    (hs : SortedByHash primitives)
    (hsmall : ∀ p ∈ primitives, p.name.hash < 2147483648)
    (hmem : ∃ p ∈ primitives, p.name.hash = v) :
    ∃ q, FindPrimitive primitives v = some q ∧ q.name.hash = v := by
  obtain ⟨p, hp, hph⟩ := hmem
  have hv : v < 2147483648 := hph ▸ hsmall p hp
  obtain ⟨j, hjlen, hjp⟩ := List.getElem_of_mem hp
  have hsmall2 : ∀ i : Nat, i < primitives.length →
      (fun q : Primitive => q.name.hash) (primitives.getD i default) < 2147483648 := by
    intro i hi
    rw [List.getD_eq_getElem primitives default hi]
    exact hsmall _ (List.getElem_mem hi)
  have hcomp : ∃ i : Nat, bsGoFuel primitives.length ComparePrimitives primitives v 0
        ((primitives.length : Int) - 1) = (i : Int) ∧ i < primitives.length ∧
        (primitives.getD i default).name.hash = v :=
    bsGoFuel_complete (fun q : Primitive => q.name.hash) primitives v
      (fun i j hij hj => SortedByHash.mono hs i j hij hj) hsmall2 hv
      primitives.length 0 ((primitives.length : Int) - 1) (by omega) (by omega) (by omega)
      ⟨j, by omega, by omega, by
        rw [List.getD_eq_getElem primitives default hjlen, hjp]; exact hph⟩
  obtain ⟨i, hieq, hilen, hih⟩ := hcomp
  rw [FindPrimitive_eq_fuel, hieq]
  rw [if_neg (by omega)]
  refine ⟨primitives[i], ?_, ?_⟩
  · rw [show ((i : Int)).toNat = i from Int.toNat_natCast i]
    exact List.getElem?_eq_getElem hilen
  · rw [List.getD_eq_getElem primitives default hilen] at hih
    exact hih

/-- Two-entry hash-sorted array whose hashes differ by more than `2^31`,
which makes the signed comparison in `BinarySearch` wrap. -/
def c1CexArr : List Primitive :=
  [⟨Kind.KIND_TYPE, ⟨268435456, none⟩, none⟩,
   ⟨Kind.KIND_TYPE, ⟨2415919104, none⟩, none⟩]

/-- C1 counterexample: `c1CexArr` is sorted ascending by 32-bit name
hash and contains an entry with hash `2415919104 = 2^31 + 2^28`, yet
`FindPrimitive` returns null for that very hash: the unsigned difference
`2415919104 - 268435456 = 2^31` reinterpreted as `int` is negative, so
the first probe walks away from the matching entry. -/
theorem C1_counterexample :
    SortedByHash c1CexArr ∧
    (∀ p ∈ c1CexArr, p.name.hash < 4294967296) ∧
    (∃ p ∈ c1CexArr, p.name.hash = 2415919104) ∧
    FindPrimitive c1CexArr 2415919104 = none := by
  refine ⟨by decide, by decide, by decide, ?_⟩
  rw [FindPrimitive_eq_fuel]
  decide

/-- C1 (amended): for a hash-sorted primitive array all of whose name
hashes fit in 31 bits (so the `hash - name.hash` comparison cannot
wrap), `FindPrimitive` returns some entry with the queried hash for
every hash present in the array; and for every 32-bit hash not present,
it returns null (the null half needs no 31-bit restriction and no
sortedness: the search only ever returns an exact-compare match). -/
theorem C1_theorem (primitives : List Primitive)
    (hs : SortedByHash primitives)
    (hsmall : ∀ p ∈ primitives, p.name.hash < 2147483648) :
    (∀ p ∈ primitives,
      ∃ q, FindPrimitive primitives p.name.hash = some q ∧
        q.name.hash = p.name.hash) ∧
    (∀ v : Nat, v < 4294967296 → (∀ p ∈ primitives, p.name.hash ≠ v) →
      FindPrimitive primitives v = none) := by
  constructor
  · intro p hp
    exact FindPrimitive_found hs hsmall ⟨p, hp, rfl⟩
  · intro v hv habs
    exact FindPrimitive_not_found hv
      (fun p hp => lt_trans (hsmall p hp) (by norm_num)) habs

/-- Concrete array for the C1 witness. -/
def c1WitArr : List Primitive :=
  [⟨Kind.KIND_TYPE, ⟨100, none⟩, none⟩,
   ⟨Kind.KIND_CLASS, ⟨200, none⟩, none⟩]

/-- C1 witness: `C1_theorem` applied to a concrete sorted small-hash
array, finding hash 200 and missing hash 999. -/
theorem C1_witness :
    (∃ q, FindPrimitive c1WitArr 200 = some q ∧ q.name.hash = 200) ∧
    FindPrimitive c1WitArr 999 = none := by
  have h := C1_theorem c1WitArr (by decide) (by decide)
  exact ⟨h.1 ⟨Kind.KIND_CLASS, ⟨200, none⟩, none⟩ (by decide),
    h.2 999 (by decide) (by decide)⟩

/-- The four-entry array of the spec's concrete binary-search scenario. -/
def c6Array : List Name :=
  [⟨10, none⟩, ⟨20, none⟩, ⟨30, none⟩, ⟨40, none⟩]

/-- C6: on the sorted array with hashes `[10, 20, 30, 40]`, the binary
search returns `-1` (not-found) for 25, index 2 for 30, index 0 for 10
and index 3 for 40. -/
theorem C6_theorem :
    BinarySearch CompareNames c6Array 25 = -1 ∧
    BinarySearch CompareNames c6Array 30 = 2 ∧
    BinarySearch CompareNames c6Array 10 = 0 ∧
    BinarySearch CompareNames c6Array 40 = 3 := by
  refine ⟨?_, ?_, ?_, ?_⟩ <;> (rw [BinarySearch_eq_fuel]; decide)

/-- `crcpp::internal::DatabaseMem`: the single memory block.  Per-kind
payloads beyond the shared `Primitive` base (sizes, constants, offsets,
...) are not needed by any claim and are collapsed to the base record;
the name table and the flattened `type_primitives` index keep their
structure. -/
structure DatabaseMem where
  name_text_data : Option String
  names : List Name
  types : List Primitive
  enum_constants : List Primitive
  enums : List Primitive
  fields : List Primitive
  functions : List Primitive
  classes : List Primitive
  namespaces : List Primitive
  type_primitives : List Primitive
  global_namespace : Primitive

/-- `crcpp::Database`: owns the optional pointer to the loaded block
(`m_DatabaseMem`, null before a successful load). -/
structure Database where
  m_DatabaseMem : Option DatabaseMem

/-- `crcpp::Database::GetName(const char* text)`.  The external
`internal::HashNameString` (its source is outside `src/`) is passed as
the parameter `hashFn`.  Null text and zero hash return the empty
sentinel before the database pointer is touched; a dereference of the
null `m_DatabaseMem` is the `nullDeref` fault. -/
def Database.GetName (hashFn : String → Nat) (db : Database)
    (text : Option String) : Except Fault Name :=
  match text with
  | none => .ok ⟨0, none⟩
  | some s =>
    let hash := hashFn s
    if hash = 0 then .ok ⟨0, none⟩
    else
      match db.m_DatabaseMem with
      | none => .error Fault.nullDeref
      | some mem =>
        let index := BinarySearch CompareNames mem.names hash
        if index = -1 then .ok ⟨0, none⟩
        else .ok (mem.names.getD index.toNat default)

/-- `crcpp::Database::GetType`: `FindPrimitive` over the flattened
`type_primitives` cross-reference array. -/
def Database.GetType (db : Database) (hash : Nat) : Except Fault (Option Primitive) :=
  match db.m_DatabaseMem with
  | none => .error Fault.nullDeref
  | some mem => .ok (FindPrimitive mem.type_primitives hash)

/-- `crcpp::Database::GetNamespace`: binary search over the owned
namespace array, returning a pointer to the entry or null. -/
def Database.GetNamespace (db : Database) (hash : Nat) : Except Fault (Option Primitive) :=
  match db.m_DatabaseMem with
  | none => .error Fault.nullDeref
  | some mem =>
    let index := BinarySearch ComparePrimitives mem.namespaces hash
    if index = -1 then .ok none
    else .ok (some (mem.namespaces.getD index.toNat default))

/-- `crcpp::Database::GetFunction`: binary search over the owned
function array, returning a pointer to the entry or null. -/
def Database.GetFunction (db : Database) (hash : Nat) : Except Fault (Option Primitive) :=
  match db.m_DatabaseMem with
  | none => .error Fault.nullDeref
  | some mem =>
    let index := BinarySearch ComparePrimitives mem.functions hash
    if index = -1 then .ok none
    else .ok (some (mem.functions.getD index.toNat default))

/-- `crcpp::Database::Load`: assigns the result of the external loader
(`internal::LoadMemoryMappedDatabase`, whose source is outside `src/`,
here abstracted as the argument `loadResult`) to `m_DatabaseMem` and
returns `m_DatabaseMem != 0`. -/
def Database.Load (db : Database) (loadResult : Option DatabaseMem) :
    Database × Bool :=
  ({ m_DatabaseMem := loadResult }, loadResult.isSome)

/-- `clcpp::Database::IsLoaded`: `return m_DatabaseMem != 0;`. -/
def Database.IsLoaded (db : Database) : Bool :=
  db.m_DatabaseMem.isSome

/-- Name-table variant of the miss lemma: when no name record carries
the queried 32-bit hash, the search returns `-1`. -/
theorem BinarySearch_names_not_found {names : List Name} {v : Nat}
    (hv : v < 4294967296)
    (hall : ∀ n ∈ names, n.hash < 4294967296)
    (habs : ∀ n ∈ names, n.hash ≠ v) :
    BinarySearch CompareNames names v = -1 := by
  rw [BinarySearch_eq_fuel]
  rcases bsGoFuel_sound CompareNames names v names.length 0
      ((names.length : Int) - 1) (by omega) (by omega) with h1 | ⟨h2a, h2b, h2c⟩
  · exact h1
  · exfalso
    set r := bsGoFuel names.length CompareNames names v 0
      ((names.length : Int) - 1) with hr
    have hrlen : r.toNat < names.length := by omega
    have hmem : names.getD r.toNat default ∈ names := by
      rw [List.getD_eq_getElem names default hrlen]
      exact List.getElem_mem hrlen
    have hz : toInt32 (u32sub v (names.getD r.toNat default).hash) = 0 := h2c
    have := (toInt32_u32sub_eq_zero_iff hv (hall _ hmem)).mp hz
    exact habs _ hmem this.symm

/-- C2 counterexample: on a never-loaded database, `GetName` with a null
text pointer returns the degraded empty sentinel `Name` instead of
failing an assertion — no query operation of `crcpp::Database` checks
`m_DatabaseMem` before use. -/
theorem C2_counterexample :
    Database.GetName (fun _ => 0) ⟨none⟩ none = Except.ok ⟨0, none⟩ ∧
    Database.GetName (fun _ => 0) ⟨none⟩ none ≠ Except.error Fault.assertFail := by
  exact ⟨rfl, fun h => Except.noConfusion h⟩

/-- C2 (amended): querying before a successful load is not guarded by
any assertion. `GetType`, `GetNamespace`, `GetFunction`, and `GetName`
with text whose hash is nonzero dereference the null `m_DatabaseMem`
pointer (undefined behaviour / crash, not an assertion), while `GetName`
with null text or with text hashing to 0 returns the empty sentinel
`Name` — a degraded value — without any check. -/
theorem C2_theorem (hashFn : String → Nat) (hash : Nat) (s : String) :
    Database.GetType ⟨none⟩ hash = Except.error Fault.nullDeref ∧
    Database.GetNamespace ⟨none⟩ hash = Except.error Fault.nullDeref ∧
    Database.GetFunction ⟨none⟩ hash = Except.error Fault.nullDeref ∧
    Database.GetName hashFn ⟨none⟩ none = Except.ok ⟨0, none⟩ ∧
    (hashFn s = 0 → Database.GetName hashFn ⟨none⟩ (some s) = Except.ok ⟨0, none⟩) ∧
    (hashFn s ≠ 0 → Database.GetName hashFn ⟨none⟩ (some s) = Except.error Fault.nullDeref) := by
  refine ⟨rfl, rfl, rfl, rfl, ?_, ?_⟩
  · intro h
    simp [Database.GetName, h]
  · intro h
    simp [Database.GetName, h]

/-- C2 witness: `C2_theorem` at a concrete hash function and inputs. -/
theorem C2_witness :
    Database.GetType ⟨none⟩ 5 = Except.error Fault.nullDeref ∧
    Database.GetName (fun _ => 1) ⟨none⟩ (some "x") = Except.error Fault.nullDeref :=
  ⟨(C2_theorem (fun _ => 1) 5 "x").1,
   (C2_theorem (fun _ => 1) 5 "x").2.2.2.2.2 one_ne_zero⟩

/-- C4: `GetName` returns the empty sentinel (hash 0, null text) for a
null text pointer, for text hashing to 0 (in particular the empty
string, whose hash the external hash function maps to 0), and for a
computed hash absent from the name table; for null or zero-hash input
the result is the same for every database state, loaded or not — the
name table is never consulted. -/
theorem C4_theorem (hashFn : String → Nat) :
    (∀ db : Database, Database.GetName hashFn db none = Except.ok ⟨0, none⟩) ∧
    (∀ db : Database, hashFn "" = 0 →
      Database.GetName hashFn db (some "") = Except.ok ⟨0, none⟩) ∧
    (∀ (mem : DatabaseMem) (s : String),
      hashFn s < 4294967296 →
      (∀ n ∈ mem.names, n.hash < 4294967296) →
      (∀ n ∈ mem.names, n.hash ≠ hashFn s) →
      Database.GetName hashFn ⟨some mem⟩ (some s) = Except.ok ⟨0, none⟩) := by
  refine ⟨fun db => rfl, fun db h => by simp [Database.GetName, h], ?_⟩
  intro mem s hv hall habs
  by_cases h0 : hashFn s = 0
  · simp [Database.GetName, h0]
  · simp only [Database.GetName, h0, if_neg]
    rw [BinarySearch_names_not_found hv hall habs]
    simp

/-- Concrete one-entry name table for the C4 witness. -/
def c4Mem : DatabaseMem :=
  ⟨none, [⟨7, none⟩], [], [], [], [], [], [], [], [], default⟩

/-- C4 witness: `C4_theorem` at concrete hash functions, databases and
name tables — null text on an unloaded database, the empty string, and
a hash (5) absent from a one-entry table. -/
theorem C4_witness :
    Database.GetName (fun _ => 0) ⟨none⟩ none = Except.ok ⟨0, none⟩ ∧
    Database.GetName (fun _ => 0) ⟨none⟩ (some "") = Except.ok ⟨0, none⟩ ∧
    Database.GetName (fun _ => 5) ⟨some c4Mem⟩ (some "x") = Except.ok ⟨0, none⟩ :=
  ⟨(C4_theorem (fun _ => 0)).1 ⟨none⟩,
   (C4_theorem (fun _ => 0)).2.1 ⟨none⟩ rfl,
   (C4_theorem (fun _ => 5)).2.2 c4Mem "x" (by norm_num) (by decide) (by decide)⟩

/-- C5: the boolean returned by `Load` equals `IsLoaded()` afterwards;
a failed load leaves the facade not-loaded with a null database pointer;
and after the call `IsLoaded()` is true exactly when the loader
produced a block. -/
theorem C5_theorem (db : Database) (loadResult : Option DatabaseMem) :
    (db.Load loadResult).2 = (db.Load loadResult).1.IsLoaded ∧
    ((db.Load loadResult).2 = false → (db.Load loadResult).1.m_DatabaseMem = none) ∧
    ((db.Load loadResult).1.IsLoaded = true ↔ loadResult.isSome = true) := by
  cases loadResult <;> simp [Database.Load, Database.IsLoaded]

/-- C5 witness: a failed load (`loadResult = none`) on a fresh facade
leaves the database pointer null. -/
theorem C5_witness : (Database.Load ⟨none⟩ none).1.m_DatabaseMem = none :=
  (C5_theorem ⟨none⟩ none).2.1 rfl

/-- C7: on a loaded database whose flattened type-primitives array is
empty, `GetType` returns null for every hash value. -/
theorem C7_theorem (mem : DatabaseMem) (h : mem.type_primitives = [])
    (hash : Nat) : Database.GetType ⟨some mem⟩ hash = Except.ok none := by
  simp only [Database.GetType, h]
  rw [FindPrimitive_eq_fuel]
  rfl

/-- Concrete empty database block for the C7 witness. -/
def c7Mem : DatabaseMem :=
  ⟨none, [], [], [], [], [], [], [], [], [], default⟩

/-- C7 witness: `C7_theorem` on a concrete empty block at hash 12345. -/
theorem C7_witness : Database.GetType ⟨some c7Mem⟩ 12345 = Except.ok none :=
  C7_theorem c7Mem rfl 12345

/-- `clcpp::Type` (and `crcpp::Type`): the `Primitive` base plus `size`.
The kind-checked casts return the receiver itself (`(const Enum*)this`)
when the tag matches and fail `internal::Assert` otherwise. -/
structure TypePrim where
  kind : Kind
  name : Name
  parent : Option Nat
  size : Nat
deriving DecidableEq, Repr

/-- `Type::AsEnum`: `Assert(kind == Enum::KIND); return (const Enum*)this;`. -/
def TypePrim.AsEnum (t : TypePrim) : Except Fault TypePrim :=
  if t.kind = Kind.KIND_ENUM then .ok t else .error Fault.assertFail

/-- `Type::AsTemplateType` (clcpp profile). -/
def TypePrim.AsTemplateType (t : TypePrim) : Except Fault TypePrim :=
  if t.kind = Kind.KIND_TEMPLATE_TYPE then .ok t else .error Fault.assertFail

/-- `Type::AsClass`. -/
def TypePrim.AsClass (t : TypePrim) : Except Fault TypePrim :=
  if t.kind = Kind.KIND_CLASS then .ok t else .error Fault.assertFail

/-- `clcpp::Attribute`: the `Primitive` base for the attribute payload
variants, with the four kind-checked payload casts. -/
structure AttributePrim where
  kind : Kind
  name : Name
  parent : Option Nat
deriving DecidableEq, Repr

/-- `Attribute::AsIntAttribute`. -/
def AttributePrim.AsIntAttribute (a : AttributePrim) : Except Fault AttributePrim :=
  if a.kind = Kind.KIND_INT_ATTRIBUTE then .ok a else .error Fault.assertFail

/-- `Attribute::AsFloatAttribute`. -/
def AttributePrim.AsFloatAttribute (a : AttributePrim) : Except Fault AttributePrim :=
  if a.kind = Kind.KIND_FLOAT_ATTRIBUTE then .ok a else .error Fault.assertFail

/-- `Attribute::AsNameAttribute`. -/
def AttributePrim.AsNameAttribute (a : AttributePrim) : Except Fault AttributePrim :=
  if a.kind = Kind.KIND_NAME_ATTRIBUTE then .ok a else .error Fault.assertFail

/-- `Attribute::AsTextAttribute`. -/
def AttributePrim.AsTextAttribute (a : AttributePrim) : Except Fault AttributePrim :=
  if a.kind = Kind.KIND_TEXT_ATTRIBUTE then .ok a else .error Fault.assertFail

/-- C3: each kind-specific cast succeeds and returns the same node
exactly when the node's kind tag equals the target kind, and fails the
kind assertion otherwise; in particular a `KIND_CLASS` node passes
`AsClass` and fails `AsEnum`. -/
theorem C3_theorem :
    (∀ t : TypePrim,
      (t.AsEnum = Except.ok t ↔ t.kind = Kind.KIND_ENUM) ∧
      (t.AsEnum = Except.error Fault.assertFail ↔ t.kind ≠ Kind.KIND_ENUM) ∧
      (t.AsTemplateType = Except.ok t ↔ t.kind = Kind.KIND_TEMPLATE_TYPE) ∧
      (t.AsTemplateType = Except.error Fault.assertFail ↔ t.kind ≠ Kind.KIND_TEMPLATE_TYPE) ∧
      (t.AsClass = Except.ok t ↔ t.kind = Kind.KIND_CLASS) ∧
      (t.AsClass = Except.error Fault.assertFail ↔ t.kind ≠ Kind.KIND_CLASS)) ∧
    (∀ a : AttributePrim,
      (a.AsIntAttribute = Except.ok a ↔ a.kind = Kind.KIND_INT_ATTRIBUTE) ∧
      (a.AsIntAttribute = Except.error Fault.assertFail ↔ a.kind ≠ Kind.KIND_INT_ATTRIBUTE) ∧
      (a.AsFloatAttribute = Except.ok a ↔ a.kind = Kind.KIND_FLOAT_ATTRIBUTE) ∧
      (a.AsFloatAttribute = Except.error Fault.assertFail ↔ a.kind ≠ Kind.KIND_FLOAT_ATTRIBUTE) ∧
      (a.AsNameAttribute = Except.ok a ↔ a.kind = Kind.KIND_NAME_ATTRIBUTE) ∧
      (a.AsNameAttribute = Except.error Fault.assertFail ↔ a.kind ≠ Kind.KIND_NAME_ATTRIBUTE) ∧
      (a.AsTextAttribute = Except.ok a ↔ a.kind = Kind.KIND_TEXT_ATTRIBUTE) ∧
      (a.AsTextAttribute = Except.error Fault.assertFail ↔ a.kind ≠ Kind.KIND_TEXT_ATTRIBUTE)) ∧
    (∀ t : TypePrim, t.kind = Kind.KIND_CLASS →
      t.AsClass = Except.ok t ∧ t.AsEnum = Except.error Fault.assertFail) := by
  refine ⟨?_, ?_, ?_⟩
  · intro t
    refine ⟨?_, ?_, ?_, ?_, ?_, ?_⟩ <;>
      simp only [TypePrim.AsEnum, TypePrim.AsTemplateType, TypePrim.AsClass] <;>
      split_ifs with h <;> simp [h]
  · intro a
    refine ⟨?_, ?_, ?_, ?_, ?_, ?_, ?_, ?_⟩ <;>
      simp only [AttributePrim.AsIntAttribute, AttributePrim.AsFloatAttribute,
        AttributePrim.AsNameAttribute, AttributePrim.AsTextAttribute] <;>
      split_ifs with h <;> simp [h]
  · intro t h
    constructor <;> simp [TypePrim.AsClass, TypePrim.AsEnum, h]

/-- C3 witness: a concrete `KIND_CLASS` node passes `AsClass` (returning
itself) and fails the `AsEnum` kind assertion. -/
theorem C3_witness :
    TypePrim.AsClass ⟨Kind.KIND_CLASS, ⟨1, none⟩, none, 4⟩
      = Except.ok ⟨Kind.KIND_CLASS, ⟨1, none⟩, none, 4⟩ ∧
    TypePrim.AsEnum ⟨Kind.KIND_CLASS, ⟨1, none⟩, none, 4⟩
      = Except.error Fault.assertFail :=
  C3_theorem.2.2 ⟨Kind.KIND_CLASS, ⟨1, none⟩, none, 4⟩ rfl

/-- `clcpp::CArray`: size, data pointer (the buffer contents, of which
the first `size` elements are the live ones) and the allocator used to
obtain the storage (null for non-owning views).  The allocator handle is
opaque. -/
structure CArray (α : Type) where
  size : Nat
  data : List α
  allocator : Option Nat
deriving DecidableEq, Repr

/-- `shallow_copy` from the clReflectExport array utilities: copies
`size`, `data` and `allocator` from `src` into `dest`; `src` is passed
by const reference and unchanged.  The in-place mutation of `dest` is
modelled by returning the pair (new `dest`, `src`). -/
def shallow_copy {α : Type} (dest src : CArray α) : CArray α × CArray α :=
  ({ size := src.size, data := src.data, allocator := src.allocator }, src)

/-- `unstable_remove` from the clReflectExport array utilities:
`Assert(index < size)`, overwrite slot `index` with the last live
element, decrement `size`; no reallocation. -/
def unstable_remove {α : Type} [Inhabited α] (array : CArray α) (index : Nat) :
    Except Fault (CArray α) :=
  if index < array.size then
    .ok { array with
      data := array.data.set index (array.data.getD (array.size - 1) default),
      size := array.size - 1 }
  else .error Fault.assertFail

theorem set_append_getD_perm {α : Type} [Inhabited α] :
    ∀ (m : List α) (i : Nat) (x : α), i < m.length →
    List.Perm (m.set i x ++ [m.getD i default]) (m ++ [x])
  | [], i, x, h => absurd h (by simp)
  | a :: t, 0, x, _ => by
    simp only [List.set_cons_zero, List.getD_cons_zero, List.cons_append]
    refine (List.Perm.cons x (List.perm_append_singleton a t)).trans ?_
    refine (List.Perm.swap a x t).trans ?_
    exact List.Perm.cons a (List.perm_append_singleton x t).symm
  | a :: t, i + 1, x, h => by
    simp only [List.set_cons_succ, List.getD_cons_succ, List.cons_append]
    exact List.Perm.cons a (set_append_getD_perm t i x (by simpa using h))

/-- C8: for `index < size` (with the buffer at least `size` long),
`unstable_remove` overwrites slot `index` with the last live element and
decrements `size`, removing exactly the element formerly at `index` (up
to reordering) without reallocating (the buffer keeps its length and
the allocator field is untouched); for `index ≥ size` the bounds
assertion fails. -/
theorem C8_theorem {α : Type} [Inhabited α] (a : CArray α) (index : Nat)
    (hwf : a.size ≤ a.data.length) :
    (index < a.size →
      ∃ a2, unstable_remove a index = Except.ok a2 ∧
        a2.size = a.size - 1 ∧
        a2.data = a.data.set index (a.data.getD (a.size - 1) default) ∧
        a2.data.length = a.data.length ∧
        a2.allocator = a.allocator ∧
        List.Perm (a2.data.take a2.size ++ [a.data.getD index default])
          (a.data.take a.size)) ∧
    (a.size ≤ index → unstable_remove a index = Except.error Fault.assertFail) := by
  constructor
  · intro hidx
    refine ⟨⟨a.size - 1, a.data.set index (a.data.getD (a.size - 1) default),
        a.allocator⟩, by rw [unstable_remove, if_pos hidx], rfl, rfl, by simp, rfl, ?_⟩
    have hn1 : a.size - 1 < a.data.length := by omega
    have htklen : (a.data.take (a.size - 1)).length = a.size - 1 := by
      simp; omega
    have htake : a.data.take (a.size - 1) ++ [a.data.getD (a.size - 1) default]
        = a.data.take a.size := by
      rw [List.getD_eq_getElem a.data default hn1]
      have := (List.take_succ (l := a.data) (n := a.size - 1)).symm
      rw [List.getElem?_eq_getElem hn1] at this
      simpa [show a.size - 1 + 1 = a.size by omega] using this
    by_cases hlast : index = a.size - 1
    · subst hlast
      have hset : (a.data.set (a.size - 1)
          (a.data.getD (a.size - 1) default)).take (a.size - 1)
          = a.data.take (a.size - 1) := by
        rw [List.set_take, List.set_eq_of_length_le (by rw [htklen])]
      simp only [hset]
      rw [htake]
    · have hidx2 : index < a.size - 1 := by omega
      have hset : (a.data.set index
          (a.data.getD (a.size - 1) default)).take (a.size - 1)
          = (a.data.take (a.size - 1)).set index (a.data.getD (a.size - 1) default) := by
        rw [List.set_take]
      simp only [hset]
      have hgd : (a.data.take (a.size - 1)).getD index default
          = a.data.getD index default := by
        rw [List.getD_eq_getElem _ default (by omega : index < (a.data.take (a.size - 1)).length),
          List.getD_eq_getElem a.data default (by omega), List.getElem_take]
      rw [← htake, ← hgd]
      exact set_append_getD_perm _ index _ (by omega)
  · intro hge
    rw [unstable_remove, if_neg (by omega)]

/-- Concrete array for the C8 witness: removing index 0 from
`[5, 6, 7]` (size 3) yields data `[7, 6, 7]` with size 2 — the last
element swapped into slot 0 — and removing index 3 fails the bounds
assertion. -/
theorem C8_witness :
    (∃ a2, unstable_remove (⟨3, [5, 6, 7], some 1⟩ : CArray Nat) 0 = Except.ok a2 ∧
      a2.size = 2 ∧
      a2.data = [7, 6, 7] ∧
      a2.data.length = 3 ∧
      a2.allocator = some 1 ∧
      List.Perm (a2.data.take a2.size ++ [5]) [5, 6, 7]) ∧
    unstable_remove (⟨3, [5, 6, 7], some 1⟩ : CArray Nat) 3
      = Except.error Fault.assertFail := by
  have h := C8_theorem (⟨3, [5, 6, 7], some 1⟩ : CArray Nat) 0 (by decide)
  have h2 := C8_theorem (⟨3, [5, 6, 7], some 1⟩ : CArray Nat) 3 (by decide)
  exact ⟨h.1 (by decide), h2.2 (by decide)⟩

/-- C10: `shallow_copy` copies `size`, `data` and `allocator` from the
source into the destination and leaves the source unchanged; the
allocator (ownership marker) is duplicated, not cleared, so the copy is
owning-marked exactly when the source was. -/
theorem C10_theorem {α : Type} (dest src : CArray α) :
    (shallow_copy dest src).1.size = src.size ∧
    (shallow_copy dest src).1.data = src.data ∧
    (shallow_copy dest src).1.allocator = src.allocator ∧
    (shallow_copy dest src).2 = src ∧
    (shallow_copy dest src).1.allocator.isSome = src.allocator.isSome :=
  ⟨rfl, rfl, rfl, rfl, rfl⟩

/-- The buffer-level error taxonomy of the spec for `clutl::DataBuffer`
operations. -/
inductive BufferError where
  | OutOfBounds
  | Underrun
  | OutOfRange
deriving DecidableEq, Repr

/-- `clutl::DataBuffer` (header in `src`): a fixed-capacity byte region
(`m_Data`, kept at length `m_Size`) with an independent cursor
`m_Position`. -/
structure DataBuffer where
  m_Data : List Nat
  m_Size : Nat
  m_Position : Nat
deriving DecidableEq, Repr

/-- Modelled from the spec: the implementation of
`clutl::DataBuffer::Write` is not under `src/` (only the class
declaration is); spec §4.1 says `write(data, length)` appends at the
cursor, advances the cursor, and fails with `OutOfBounds` if it would
exceed capacity. -/
def DataBuffer.Write (b : DataBuffer) (data : List Nat) (length : Nat) :
    Except BufferError DataBuffer :=
  if b.m_Position + length > b.m_Size then .error BufferError.OutOfBounds
  else .ok { b with
    m_Data := b.m_Data.take b.m_Position ++ data.take length
      ++ b.m_Data.drop (b.m_Position + length),
    m_Position := b.m_Position + length }

/-- C9: `Write(data, length)` places the first `length` given bytes at
the current cursor position, advances the cursor by `length`, preserves
the bytes before the cursor and the capacity, and fails with
`OutOfBounds` when the write would exceed the fixed capacity. -/
theorem C9_theorem (b : DataBuffer) (data : List Nat) (length : Nat)
    (hinv : b.m_Data.length = b.m_Size) (hlen : length ≤ data.length) :
    (b.m_Position + length ≤ b.m_Size →
      ∃ b2, b.Write data length = Except.ok b2 ∧
        b2.m_Position = b.m_Position + length ∧
        b2.m_Size = b.m_Size ∧
        b2.m_Data.length = b.m_Size ∧
        (b2.m_Data.drop b.m_Position).take length = data.take length ∧
        b2.m_Data.take b.m_Position = b.m_Data.take b.m_Position) ∧
    (b.m_Position + length > b.m_Size →
      b.Write data length = Except.error BufferError.OutOfBounds) := by
  constructor
  · intro hfit
    refine ⟨⟨b.m_Data.take b.m_Position ++ data.take length
        ++ b.m_Data.drop (b.m_Position + length), b.m_Size,
        b.m_Position + length⟩,
      by rw [DataBuffer.Write, if_neg (by omega)], rfl, rfl, ?_, ?_, ?_⟩
    · simp
      omega
    · have h1 : (b.m_Data.take b.m_Position).length = b.m_Position := by
        simp; omega
      rw [List.append_assoc, List.drop_append_of_le_length (by simp; omega)]
      have h2 : List.drop b.m_Position (List.take b.m_Position b.m_Data) = [] :=
        List.drop_eq_nil_of_le (by simp)
      rw [h2, List.nil_append, List.take_append_of_le_length (by simp; omega)]
      simp
    · rw [List.append_assoc, List.take_append_of_le_length (by simp; omega)]
      simp
  · intro hover
    rw [DataBuffer.Write, if_pos (by omega)]

/-- C9 witness: `C9_theorem` on a concrete four-byte buffer — writing
two bytes at cursor 1 succeeds and lands at offset 1, and a three-byte
write at cursor 2 overruns. -/
theorem C9_witness :
    (∃ b2, DataBuffer.Write ⟨[0, 0, 0, 0], 4, 1⟩ [7, 8] 2 = Except.ok b2 ∧
      b2.m_Position = 3 ∧
      b2.m_Size = 4 ∧
      b2.m_Data.length = 4 ∧
      (b2.m_Data.drop 1).take 2 = [7, 8] ∧
      b2.m_Data.take 1 = [0]) ∧
    DataBuffer.Write ⟨[0, 0, 0, 0], 4, 2⟩ [7, 8, 9] 3
      = Except.error BufferError.OutOfBounds := by
  have h1 := C9_theorem ⟨[0, 0, 0, 0], 4, 1⟩ [7, 8] 2 (by decide) (by decide)
  have h2 := C9_theorem ⟨[0, 0, 0, 0], 4, 2⟩ [7, 8, 9] 3 (by decide) (by decide)
  exact ⟨h1.1 (by decide), h2.2 (by decide)⟩
